import Mathlib

/-!
Verification of the variable-rebinding plugin (shallow embedding).

The source program is an event-loop style TypeScript plugin.  We embed its
core components as pure Lean functions and small-step state machines:

* `withRetry` — the exponential-backoff retry wrapper; the asynchronous
  operation is embedded as a function from the attempt index to an
  `Except JsError` outcome, and the wrapper additionally returns the list of
  sleep durations and the number of attempts it performed.
* `RequestQueue` — the bounded-concurrency FIFO scheduler, embedded as a
  state machine whose atomic events are exactly the event-loop callbacks of
  the source (`enqueue` followed by `next`, and the `finally` completion
  handler followed by `next`).
* `getImportedVariable` — the import cache, embedded as a machine over the
  cache entry of one key, with one suspension point between the cache check
  and the cache write (the `await` of the remote import), so that arbitrary
  interleavings of concurrent callers can be examined.
* `getAllNodesInSelection` — the breadth-first flattener.
* `processPaints` / `reassignVariableModes` / `processSingleNode` — the
  per-node rebinding pipeline; remote host capabilities
  (`getVariableByIdAsync`, `importVariableByKeyAsync`,
  `setBoundVariableForPaint`, `getVariableCollectionByIdAsync`) are oracle
  parameters, and the host node is split into its paint/mode properties
  (`SceneNodeProps`, with the ancestor chain passed as the list of ancestor
  node types) and its traversal skeleton (`SceneNode`).
-/

/-- A JavaScript exception value: an optional `status` field (the retry
wrapper tests `error.status === 429`) plus an identifying message. -/
structure JsError where
  status : Option Nat
  message : String
deriving DecidableEq, Repr

/-- A materialized `Variable`: `id`, `name` and the
`variableCollectionId` back-reference. -/
structure Variable where
  id : String
  name : String
  variableCollectionId : String
deriving DecidableEq, Repr

/-- A `LibraryVariable` descriptor from the team library: stable `key`
plus display `name`. -/
structure LibraryVariable where
  key : String
  name : String
deriving DecidableEq, Repr

/-- A `VariableCollection`, identified by its `id`. -/
structure VariableCollection where
  id : String
deriving DecidableEq, Repr

/-- A paint entry.  The only variant the pipeline inspects is `SOLID`
with an optional bound color-variable id (`paint.boundVariables?.color?.id`);
every other paint is opaque. -/
inductive Paint where
  | solid (boundColorId : Option String) (color : String)
  | other (raw : String)
deriving DecidableEq, Repr

/-- `Map.get` on the name-keyed catalog `webVariablesMap`. -/
def mapGet (m : List (String × LibraryVariable)) (k : String) : Option LibraryVariable :=
  (m.find? (fun kv => kv.1 == k)).map Prod.snd

/-!
## RetryPolicy: `withRetry`

`withRetry(fn, retries, delayMs)` runs `fn`; on an error with
`status === 429` and `retries > 0` it sleeps `delayMs` and recurses with
`retries - 1` and `delayMs * 2`; otherwise it rethrows.  The embedding
indexes `fn` by the attempt number and returns
`(sleep durations, number of attempts, final outcome)`.
-/

def withRetry {α : Type} (fn : Nat → Except JsError α) :
    Nat → Nat → Nat → List Nat × Nat × Except JsError α
  | 0, _, attempt =>
    match fn attempt with
    | Except.ok v => ([], 1, Except.ok v)
    | Except.error e => ([], 1, Except.error e)
  | retries + 1, delayMs, attempt =>
    match fn attempt with
    | Except.ok v => ([], 1, Except.ok v)
    | Except.error e =>
      if e.status = some 429 then
        let r := withRetry fn retries (delayMs * 2) (attempt + 1)
        (delayMs :: r.1, r.2.1 + 1, r.2.2)
      else
        ([], 1, Except.error e)

/-!
## RequestQueue

The scheduler state: the pending FIFO `queue` (task ids), the `activeCount`
of running tasks, and bookkeeping counters `submitted` and `done`.
-/

structure QueueState where
  queue : List Nat
  activeCount : Nat
  submitted : Nat
  done : Nat
deriving DecidableEq, Repr

/-- `next()`: if `activeCount >= maxConcurrency` or the pending list is
empty, do nothing; otherwise shift the head task off the queue, increment
`activeCount` and start it. -/
def next (maxConcurrency : Nat) (s : QueueState) : QueueState :=
  if s.activeCount ≥ maxConcurrency ∨ s.queue = [] then s
  else { s with queue := s.queue.tail, activeCount := s.activeCount + 1 }

/-- `enqueue(fn)`: push the task onto the pending list, then run the
admission rule `next()`.  Task ids are allocated from `submitted`. -/
def enqueueTask (maxConcurrency : Nat) (s : QueueState) : QueueState :=
  next maxConcurrency
    { s with queue := s.queue ++ [s.submitted], submitted := s.submitted + 1 }

/-- The `finally` completion callback of a running task: decrement
`activeCount`, count the task as done, then re-run the admission rule
`next()` — all within one event-loop callback, so no other queue event can
be observed in between. -/
def stepComplete (maxConcurrency : Nat) (s : QueueState) : QueueState :=
  next maxConcurrency
    { s with activeCount := s.activeCount - 1, done := s.done + 1 }

/-- `fn().finally(...)`: the completion callback receives the settled
outcome of the task but ignores it — success and failure are scheduled
identically. -/
def finallyComplete (maxConcurrency : Nat) (s : QueueState)
    (outcome : Except JsError Unit) : QueueState :=
  stepComplete maxConcurrency s

/-- The closure that `processNodesInChunks` enqueues wraps the per-node
processing in `try/catch`: an error is reported and swallowed, so the task
itself always settles successfully. -/
def chunkTask (processResult : Except JsError Unit) : Except JsError Unit :=
  match processResult with
  | Except.error _ => Except.ok ()
  | Except.ok v => Except.ok v

/-- The loop guard of `waitUntilEmpty`:
`this.activeCount > 0 || this.queue.length > 0`.  The call returns exactly
when this guard is false. -/
def waitGuard (s : QueueState) : Prop :=
  0 < s.activeCount ∨ 0 < s.queue.length

instance (s : QueueState) : Decidable (waitGuard s) := by
  unfold waitGuard; infer_instance

/-- The queue states reachable from a fresh queue by any interleaving of
`enqueue` events and task completions (a completion requires a running
task). -/
inductive Reachable (maxConcurrency : Nat) : QueueState → Prop where
  | init : Reachable maxConcurrency ⟨[], 0, 0, 0⟩
  | enqueue {s : QueueState} :
      Reachable maxConcurrency s →
      Reachable maxConcurrency (enqueueTask maxConcurrency s)
  | complete {s : QueueState} (outcome : Except JsError Unit) :
      0 < s.activeCount → Reachable maxConcurrency s →
      Reachable maxConcurrency (finallyComplete maxConcurrency s outcome)

/-- Scheduler invariant: occupancy is bounded by `maxConcurrency`, a
non-empty pending list means every slot is occupied, and every submitted
task is pending, running or done. -/
def QueueInv (maxConcurrency : Nat) (s : QueueState) : Prop :=
  s.activeCount ≤ maxConcurrency ∧
  (s.queue ≠ [] → s.activeCount = maxConcurrency) ∧
  s.submitted = s.done + s.queue.length + s.activeCount

theorem reachable_inv {C : Nat} {s : QueueState} (h : Reachable C s) :
    QueueInv C s := by
  induction h with
  | init => exact ⟨Nat.zero_le C, fun h => absurd rfl h, rfl⟩
  | @enqueue s hs ih =>
    obtain ⟨h1, h2, h3⟩ := ih
    unfold QueueInv enqueueTask next
    split_ifs with hc <;> dsimp only at hc ⊢
    · rcases hc with hc | hc
      · have hac : s.activeCount = C := Nat.le_antisymm h1 hc
        refine ⟨h1, fun _ => hac, ?_⟩
        simp only [List.length_append, List.length_singleton]
        omega
      · exact absurd hc (by simp)
    · push_neg at hc
      have hlt : s.activeCount < C := hc.1
      have hq : s.queue = [] := by
        by_contra hne
        exact absurd (h2 hne) (Nat.ne_of_lt hlt)
      refine ⟨hlt, fun htl => absurd htl (by simp [hq]), ?_⟩
      simp only [hq, List.nil_append, List.tail_cons, List.length_nil]
      simp only [hq, List.length_nil] at h3
      omega
  | @complete s outcome ha hs ih =>
    obtain ⟨h1, h2, h3⟩ := ih
    unfold QueueInv finallyComplete stepComplete next
    split_ifs with hc <;> dsimp only at hc ⊢
    · rcases hc with hc | hc
      · exact absurd hc (by omega)
      · refine ⟨by omega, fun htl => absurd htl (by simp [hc]), ?_⟩
        simp only [hc, List.length_nil] at h3 ⊢
        omega
    · push_neg at hc
      have hac : s.activeCount = C := h2 hc.2
      have hlen : 0 < s.queue.length := List.length_pos.mpr hc.2
      refine ⟨by omega, fun _ => by omega, ?_⟩
      simp only [List.length_tail]
      omega

/-!
## Import cache: `getImportedVariable`

`getImportedVariable(libVar)` checks `importedVariablesCache.has(key)`; on a
hit it returns the cached variable, otherwise it `await`s the remote import
and only then stores and returns the result.  The `await` is a suspension
point: other tasks can run between the check and the store.  We model the
cache entry of one fixed key; `imp` is the host materialization for that
key (remote import is idempotent per key on the host side).  Each caller is
a task with a phase: not yet started, suspended between check and import,
or finished with its returned variable.
-/

inductive TaskPhase where
  | notStarted
  | checked
  | finished (v : Variable)
deriving DecidableEq, Repr

structure ImportState where
  cache : Option Variable
  importCount : Nat
  tasks : List TaskPhase
deriving DecidableEq, Repr

/-- One scheduling step of task `i`: from `notStarted` it performs the
cache check (hit → return cached; miss → suspend before the import); from
`checked` it performs the remote import, stores it and returns it.  A
finished task has no further steps. -/
def importStep (imp : Variable) (s : ImportState) (i : Nat) : ImportState :=
  match s.tasks[i]? with
  | some TaskPhase.notStarted =>
    match s.cache with
    | some v => { s with tasks := s.tasks.set i (TaskPhase.finished v) }
    | none => { s with tasks := s.tasks.set i TaskPhase.checked }
  | some TaskPhase.checked =>
    { s with
      cache := some imp,
      importCount := s.importCount + 1,
      tasks := s.tasks.set i (TaskPhase.finished imp) }
  | _ => s

/-- Run a schedule (a list of task indices, each entry giving one step to
that task) over `n` fresh tasks that all request the same key. -/
def runSchedule (imp : Variable) (n : Nat) (sched : List Nat) : ImportState :=
  sched.foldl (importStep imp) ⟨none, 0, List.replicate n TaskPhase.notStarted⟩

/-- The sequential (non-concurrent) schedule: each task runs to completion
before the next starts — two steps per task, the second a no-op when the
first already finished on a cache hit. -/
def seqSchedule (n : Nat) : List Nat :=
  (List.range n).flatMap (fun i => [i, i])

/-!
## TreeFlattener: `getAllNodesInSelection`

The traversal skeleton of a scene node: a label and the ordered children.
-/

inductive SceneNode where
  | mk (label : String) (children : List SceneNode)

def SceneNode.label : SceneNode → String
  | SceneNode.mk l _ => l

def SceneNode.children : SceneNode → List SceneNode
  | SceneNode.mk _ cs => cs

mutual

def SceneNode.size : SceneNode → Nat
  | SceneNode.mk _ cs => 1 + sizeList cs

def sizeList : List SceneNode → Nat
  | [] => 0
  | t :: ts => SceneNode.size t + sizeList ts

end

theorem sizeList_append (a b : List SceneNode) :
    sizeList (a ++ b) = sizeList a + sizeList b := by
  induction a with
  | nil => simp [sizeList]
  | cons t ts ih => simp [sizeList, ih]; omega

theorem SceneNode.size_eq (n : SceneNode) :
    n.size = 1 + sizeList n.children := by
  cases n with
  | mk l cs => rfl

/-- The queue-driven breadth-first flattener: shift a node off the work
queue, emit it, push its children at the back. -/
def getAllNodesInSelection (q : List SceneNode) : List SceneNode :=
  match q with
  | [] => []
  | n :: rest => n :: getAllNodesInSelection (rest ++ n.children)
termination_by sizeList q
decreasing_by
  simp only [sizeList_append, sizeList, SceneNode.size_eq]
  omega

theorem sizeList_flatMap_children (q : List SceneNode) :
    sizeList (q.flatMap SceneNode.children) + q.length = sizeList q := by
  induction q with
  | nil => simp [sizeList]
  | cons t ts ih =>
    cases t with
    | mk l cs =>
      simp only [List.flatMap_cons, sizeList_append, SceneNode.children,
        List.length_cons, sizeList, SceneNode.size]
      omega

/-- The breadth-first order as the specification states it: all nodes of
the current depth, then — recursively — all nodes of the next depth, where
the next depth lists the children of the current-depth nodes in
parent-then-sibling order. -/
def bfsLevelOrder (q : List SceneNode) : List SceneNode :=
  if h : q.isEmpty = true then []
  else q ++ bfsLevelOrder (q.flatMap SceneNode.children)
termination_by sizeList q
decreasing_by
  have hq : q ≠ [] := by
    cases q with
    | nil => simp at h
    | cons a b => simp
  have h2 := sizeList_flatMap_children q
  have h3 : 0 < q.length := List.length_pos.mpr hq
  omega

/-!
## RebindingPipeline

Remote host capabilities are oracle parameters:
`resolveVar` embeds `figma.variables.getVariableByIdAsync` (absent or failed
resolution ↦ `none`), `importVar` embeds the outcome of `getImportedVariable`
(import failure ↦ `none`), `setBound` embeds the pure transform
`figma.variables.setBoundVariableForPaint(paint, color, variable)`, and
`resolveCollection` embeds `figma.variables.getVariableCollectionByIdAsync`
(the per-entry `try/catch` maps a failure to `none`).
-/

/-- `isFromWebCollection`: `variable.variableCollectionId === webCollectionId`
(strict equality against a possibly-`null` id). -/
def isFromWebCollection (v : Variable) (webCollectionId : Option String) : Bool :=
  decide (some v.variableCollectionId = webCollectionId)

/-- The per-entry body of the `paints.map` in `processPaints`: skip
non-`SOLID` and unbound paints; resolve the bound variable (failure →
unchanged); skip it if a target collection id is present and the variable
already belongs to it; look the resolved name up in the catalog (no match
→ unchanged); then import (failure → unchanged); otherwise rewrite the
bound color variable. -/
def processPaint (resolveVar : String → Option Variable)
    (importVar : LibraryVariable → Option Variable)
    (setBound : Paint → Variable → Paint)
    (webVariablesMap : List (String × LibraryVariable))
    (webCollectionId : Option String) (paint : Paint) : Paint :=
  match paint with
  | Paint.other _ => paint
  | Paint.solid none _ => paint
  | Paint.solid (some variableId) _ =>
    match resolveVar variableId with
    | none => paint
    | some resolved =>
      if webCollectionId.isSome && isFromWebCollection resolved webCollectionId then
        paint
      else
        match mapGet webVariablesMap resolved.name with
        | none => paint
        | some libVar =>
          match importVar libVar with
          | none => paint
          | some imported => setBound paint imported

/-- `processPaints` on one slot (fills or strokes): map the per-entry body
over the list and write the slot back only if some entry changed. -/
def processPaints (resolveVar : String → Option Variable)
    (importVar : LibraryVariable → Option Variable)
    (setBound : Paint → Variable → Paint)
    (webVariablesMap : List (String × LibraryVariable))
    (webCollectionId : Option String) (paints : List Paint) : List Paint :=
  let updatedPaints :=
    paints.map (processPaint resolveVar importVar setBound webVariablesMap webCollectionId)
  if updatedPaints = paints then paints else updatedPaints

/-- `isNestedInInstance`: walk the ancestor chain (here given as the list
of ancestor node types, nearest first) and look for an `INSTANCE`. -/
def isNestedInInstance (ancestorTypes : List String) : Bool :=
  ancestorTypes.any (fun t => t == "INSTANCE")

/-- `clearExplicitVariableModeForCollection`: drop the explicit mode entry
of the given collection id. -/
def clearExplicitMode (modes : List (String × String)) (collId : String) :
    List (String × String) :=
  modes.filter (fun kv => kv.1 ≠ collId)

/-- `setExplicitVariableModeForCollection`: set the explicit mode of the
given collection id, overwriting an existing entry in place. -/
def setExplicitMode (modes : List (String × String)) (collId modeId : String) :
    List (String × String) :=
  if modes.any (fun kv => kv.1 == collId) then
    modes.map (fun kv => if kv.1 = collId then (collId, modeId) else kv)
  else
    modes ++ [(collId, modeId)]

/-- `reassignVariableModes`: no-op on nodes without the
`explicitVariableModes` facet or with an empty mapping.  Otherwise resolve
each referenced collection (tolerating per-entry failure) and clear each
resolved one; then, if a target collection is available, set every mode
value of the original mapping on the target collection, in order. -/
def reassignVariableModes (resolveCollection : String → Option VariableCollection)
    (explicitVariableModes : Option (List (String × String)))
    (webCollection : Option VariableCollection) :
    Option (List (String × String)) :=
  match explicitVariableModes with
  | none => none
  | some modes =>
    if modes = [] then some modes
    else
      let collections := modes.map (fun kv => resolveCollection kv.1)
      let afterClear := collections.foldl
        (fun m oc =>
          match oc with
          | none => m
          | some coll => clearExplicitMode m coll.id) modes
      match webCollection with
      | none => some afterClear
      | some web =>
        some (modes.foldl (fun m kv => setExplicitMode m web.id kv.2) afterClear)

/-- The paint/mode properties of one scene node: the optional `fills` and
`strokes` paint arrays and the optional `explicitVariableModes` mapping
(collection id ↦ mode id).  `none` embeds a node without that facet. -/
structure SceneNodeProps where
  fills : Option (List Paint)
  strokes : Option (List Paint)
  explicitVariableModes : Option (List (String × String))
deriving DecidableEq, Repr

/-- `processSingleNode`: rebind the fills and strokes, then — only when the
node is not nested inside an instance — reassign the explicit variable
modes. -/
def processSingleNode (resolveVar : String → Option Variable)
    (importVar : LibraryVariable → Option Variable)
    (setBound : Paint → Variable → Paint)
    (resolveCollection : String → Option VariableCollection)
    (webVariablesMap : List (String × LibraryVariable))
    (webCollection : Option VariableCollection)
    (ancestorTypes : List String) (node : SceneNodeProps) : SceneNodeProps :=
  let webCollectionId := Option.map VariableCollection.id webCollection
  let node1 : SceneNodeProps :=
    { node with
      fills := node.fills.map
        (processPaints resolveVar importVar setBound webVariablesMap webCollectionId),
      strokes := node.strokes.map
        (processPaints resolveVar importVar setBound webVariablesMap webCollectionId) }
  if isNestedInInstance ancestorTypes then node1
  else
    { node1 with
      explicitVariableModes :=
        reassignVariableModes resolveCollection node1.explicitVariableModes webCollection }

/-!
## Claim theorems: scheduler
-/

/-- C1: in every reachable state of a queue with concurrency limit `C`
(under any submission pattern, in particular K > C independent tasks),
`activeCount` never exceeds `C`; while the pending list is non-empty the
number running equals `min C (pending + running)`; and a completion in such
a state refills the freed slot with the head pending task within the same
atomic completion event, leaving the occupancy unchanged. -/
theorem requestQueue_bounded_occupancy (C : Nat) (s : QueueState)
    (h : Reachable C s) :
    s.activeCount ≤ C ∧
    (s.queue ≠ [] → s.activeCount = min C (s.queue.length + s.activeCount)) ∧
    (s.queue ≠ [] → 0 < s.activeCount →
      (stepComplete C s).queue = s.queue.tail ∧
      (stepComplete C s).activeCount = s.activeCount) := by
  obtain ⟨h1, h2, h3⟩ := reachable_inv h
  refine ⟨h1, fun hq => ?_, fun hq ha => ?_⟩
  · have hac := h2 hq
    have hlen : 0 < s.queue.length := List.length_pos.mpr hq
    omega
  · have hac := h2 hq
    unfold stepComplete next
    split_ifs with hc <;> dsimp only at hc ⊢
    · exfalso
      rcases hc with hc | hc
      · omega
      · exact hq hc
    · exact ⟨rfl, by omega⟩

theorem requestQueue_bounded_occupancy_witness :
    (let s := enqueueTask 2 (enqueueTask 2 (enqueueTask 2 (⟨[], 0, 0, 0⟩ : QueueState)))
     s.activeCount ≤ 2 ∧
     (s.queue ≠ [] → s.activeCount = min 2 (s.queue.length + s.activeCount)) ∧
     (s.queue ≠ [] → 0 < s.activeCount →
       (stepComplete 2 s).queue = s.queue.tail ∧
       (stepComplete 2 s).activeCount = s.activeCount)) :=
  requestQueue_bounded_occupancy 2 _
    (Reachable.enqueue (Reachable.enqueue (Reachable.enqueue Reachable.init)))

/-- C5: whenever the loop guard of `waitUntilEmpty` is false — the only
condition under which the call returns — the pending list is empty,
`activeCount` is zero, and every task ever submitted (under any submission
pattern, including tasks enqueued while earlier tasks were admitted or
running) has completed. -/
theorem waitUntilEmpty_drain_complete (C : Nat) (s : QueueState)
    (h : Reachable C s) (hret : ¬ waitGuard s) :
    s.queue = [] ∧ s.activeCount = 0 ∧ s.done = s.submitted := by
  obtain ⟨h1, h2, h3⟩ := reachable_inv h
  unfold waitGuard at hret
  push_neg at hret
  obtain ⟨hact, hlen⟩ := hret
  have hq : s.queue = [] := List.length_eq_zero.mp (by omega)
  refine ⟨hq, by omega, ?_⟩
  rw [hq] at h3
  simp at h3
  omega

theorem waitUntilEmpty_drain_complete_witness :
    (let s := finallyComplete 2 (enqueueTask 2 (⟨[], 0, 0, 0⟩ : QueueState))
       (Except.ok ())
     s.queue = [] ∧ s.activeCount = 0 ∧ s.done = s.submitted) :=
  waitUntilEmpty_drain_complete 2 _
    (Reachable.complete (Except.ok ()) (by decide)
      (Reachable.enqueue Reachable.init))
    (by decide)

/-- C9: a task that raises an error is swallowed at the scheduler boundary:
the `try/catch` wrapper settles successfully, the `finally` completion
treats failure exactly like success, the failing task is counted as
completed (its slot freed, pending work admitted just as for a success), the
occupancy bound is kept, and the resulting state is again a reachable queue
state, so neither other tasks nor the drain are aborted. -/
theorem failing_task_swallowed (C : Nat) (s : QueueState) (e : JsError)
    (h : Reachable C s) (ha : 0 < s.activeCount) :
    chunkTask (Except.error e) = Except.ok () ∧
    finallyComplete C s (Except.error e) = finallyComplete C s (Except.ok ()) ∧
    (finallyComplete C s (Except.error e)).done = s.done + 1 ∧
    (finallyComplete C s (Except.error e)).activeCount ≤ C ∧
    (s.queue ≠ [] →
      (finallyComplete C s (Except.error e)).activeCount = s.activeCount) ∧
    Reachable C (finallyComplete C s (Except.error e)) := by
  obtain ⟨h1, h2, h3⟩ := reachable_inv h
  refine ⟨rfl, rfl, ?_, ?_, fun hq => ?_, Reachable.complete (Except.error e) ha h⟩
  · unfold finallyComplete stepComplete next
    split_ifs with hc <;> dsimp only <;> rfl
  · unfold finallyComplete stepComplete next
    split_ifs with hc <;> dsimp only at hc ⊢ <;> omega
  · have hac := h2 hq
    unfold finallyComplete stepComplete next
    split_ifs with hc <;> dsimp only at hc ⊢
    · exfalso
      rcases hc with hc | hc
      · omega
      · exact hq hc
    · omega

theorem failing_task_swallowed_witness :
    (let s := enqueueTask 2 (enqueueTask 2 (⟨[], 0, 0, 0⟩ : QueueState))
     let e : JsError := ⟨some 500, "node processing failed"⟩
     chunkTask (Except.error e) = Except.ok () ∧
     finallyComplete 2 s (Except.error e) = finallyComplete 2 s (Except.ok ()) ∧
     (finallyComplete 2 s (Except.error e)).done = s.done + 1 ∧
     (finallyComplete 2 s (Except.error e)).activeCount ≤ 2 ∧
     (s.queue ≠ [] →
       (finallyComplete 2 s (Except.error e)).activeCount = s.activeCount) ∧
     Reachable 2 (finallyComplete 2 s (Except.error e))) :=
  failing_task_swallowed 2 _ ⟨some 500, "node processing failed"⟩
    (Reachable.enqueue (Reachable.enqueue Reachable.init)) (by decide)

/-!
## Claim theorems: RetryPolicy
-/

theorem withRetry_always_rate_limited {α : Type} (fn : Nat → Except JsError α)
    (e : JsError) (hall : ∀ i, fn i = Except.error e)
    (h429 : e.status = some 429) :
    ∀ retries delayMs attempt,
      withRetry fn retries delayMs attempt =
        ((List.range retries).map (fun i => delayMs * 2 ^ i), retries + 1,
          Except.error e) := by
  intro retries
  induction retries with
  | zero =>
    intro d a
    simp [withRetry, hall a]
  | succ r ih =>
    intro d a
    rw [withRetry, hall a]
    simp only [h429, if_pos]
    rw [ih (d * 2) (a + 1)]
    have hmap : (List.range (r + 1)).map (fun i => d * 2 ^ i)
        = d :: (List.range r).map (fun i => d * 2 * 2 ^ i) := by
      rw [List.range_succ_eq_map, List.map_cons, List.map_map]
      refine congrArg₂ _ (by simp) (List.map_congr_left fun i hi => ?_)
      simp [Function.comp, pow_succ]
      ring
    rw [hmap]

/-- C2 (amended): `withRetry(fn, retries, d)` attempts an operation that
always fails rate-limited exactly `retries + 1` times total — one more than
the attempt parameter, which bounds the retries after the initial attempt —
sleeping `d, 2d, 4d, …, 2^(retries-1)·d` between consecutive attempts, and
then propagates the original failure unchanged; an operation failing with a
non-rate-limited signal is attempted exactly once and its failure is
propagated unchanged. -/
theorem withRetry_retry_bound {α : Type} (fn : Nat → Except JsError α)
    (e : JsError) (retries delayMs : Nat) :
    ((∀ i, fn i = Except.error e) → e.status = some 429 →
      withRetry fn retries delayMs 0 =
        ((List.range retries).map (fun i => delayMs * 2 ^ i), retries + 1,
          Except.error e)) ∧
    (fn 0 = Except.error e → e.status ≠ some 429 →
      withRetry fn retries delayMs 0 = ([], 1, Except.error e)) := by
  constructor
  · intro hall h429
    exact withRetry_always_rate_limited fn e hall h429 retries delayMs 0
  · intro h0 hne
    cases retries with
    | zero => simp [withRetry, h0]
    | succ r =>
      rw [withRetry, h0]
      simp only [if_neg hne]

/-- An operation that always fails with the transient rate-limited signal. -/
def always429 : Nat → Except JsError Unit :=
  fun _ => Except.error ⟨some 429, "Too Many Requests"⟩

/-- An operation that fails with a non-transient signal. -/
def fail500 : Nat → Except JsError Unit :=
  fun _ => Except.error ⟨some 500, "Internal Server Error"⟩

theorem withRetry_retry_bound_witness :
    withRetry always429 2 1000 0 =
      ([1000, 2000], 3, Except.error ⟨some 429, "Too Many Requests"⟩) ∧
    withRetry fail500 2 1000 0 =
      ([], 1, Except.error ⟨some 500, "Internal Server Error"⟩) :=
  ⟨((withRetry_retry_bound always429 ⟨some 429, "Too Many Requests"⟩ 2 1000).1
      (fun _ => rfl) rfl).trans (by rfl),
   (withRetry_retry_bound fail500 ⟨some 500, "Internal Server Error"⟩ 2 1000).2
      rfl (by decide)⟩

/-- C2 counterexample: with the attempt parameter at its source default of
3, an always-rate-limited operation is attempted 4 times, not 3 — the
parameter bounds retries, not total attempts. -/
theorem withRetry_attempt_count_counterexample :
    (withRetry always429 3 1000 0).2.1 = 4 ∧
    ¬ (withRetry always429 3 1000 0).2.1 = 3 := by
  decide

/-!
## Claim theorems: TreeFlattener
-/

theorem getAllNodes_rotate (a : List SceneNode) :
    ∀ b : List SceneNode,
      getAllNodesInSelection (a ++ b) =
        a ++ getAllNodesInSelection (b ++ a.flatMap SceneNode.children) := by
  induction a with
  | nil => intro b; simp
  | cons t ts ih =>
    intro b
    rw [List.cons_append, getAllNodesInSelection, List.append_assoc,
      ih (b ++ t.children)]
    simp [List.append_assoc]

theorem getAllNodes_eq_levels (q : List SceneNode) :
    getAllNodesInSelection q = bfsLevelOrder q := by
  rw [bfsLevelOrder]
  split_ifs with h
  · have hq : q = [] := by
      cases q with
      | nil => rfl
      | cons a b => simp at h
    rw [hq, getAllNodesInSelection]
  · have hq : q ≠ [] := by
      intro hnil
      rw [hnil] at h
      simp at h
    have step : getAllNodesInSelection q =
        q ++ getAllNodesInSelection (q.flatMap SceneNode.children) := by
      have hr := getAllNodes_rotate q []
      simpa using hr
    rw [step, getAllNodes_eq_levels (q.flatMap SceneNode.children)]
termination_by sizeList q
decreasing_by
  have h2 := sizeList_flatMap_children q
  have h3 : 0 < q.length := List.length_pos.mpr hq
  omega

/-- C8: the flattener emits the nodes of a forest in breadth-first order —
it coincides with the level-by-level order `bfsLevelOrder` (all nodes of
depth d, then depth d+1, children listed in parent-then-sibling order), and
on a root with children [A, B] where A has children [A1, A2] it yields
[root, A, B, A1, A2]. -/
theorem getAllNodesInSelection_bfs_order :
    (∀ roots : List SceneNode, getAllNodesInSelection roots = bfsLevelOrder roots) ∧
    (getAllNodesInSelection
        [SceneNode.mk "root"
          [SceneNode.mk "A" [SceneNode.mk "A1" [], SceneNode.mk "A2" []],
           SceneNode.mk "B" []]]).map SceneNode.label =
      ["root", "A", "B", "A1", "A2"] := by
  refine ⟨getAllNodes_eq_levels, ?_⟩
  simp [getAllNodesInSelection, SceneNode.children, SceneNode.label]

/-!
## Claim theorems: import cache
-/

theorem importStep_tasks_length (imp : Variable) (s : ImportState) (i : Nat) :
    (importStep imp s i).tasks.length = s.tasks.length := by
  unfold importStep
  cases h : s.tasks[i]? with
  | none => rfl
  | some ph =>
    cases ph with
    | notStarted =>
      cases hc : s.cache with
      | none => simp [List.length_set]
      | some v => simp [List.length_set]
    | checked => simp [List.length_set]
    | finished v => rfl

theorem runSchedule_extend (imp : Variable) (sched : List Nat) :
    ∀ (c : Option Variable) (k : Nat) (t extra : List TaskPhase),
      (∀ i ∈ sched, i < t.length) →
      sched.foldl (importStep imp) ⟨c, k, t ++ extra⟩ =
        ⟨(sched.foldl (importStep imp) ⟨c, k, t⟩).cache,
         (sched.foldl (importStep imp) ⟨c, k, t⟩).importCount,
         (sched.foldl (importStep imp) ⟨c, k, t⟩).tasks ++ extra⟩ := by
  induction sched with
  | nil => intro c k t extra hmem; rfl
  | cons i rest ih =>
    intro c k t extra hmem
    have hi : i < t.length := hmem i (List.mem_cons_self i rest)
    have hstep : importStep imp ⟨c, k, t ++ extra⟩ i =
        ⟨(importStep imp ⟨c, k, t⟩ i).cache,
         (importStep imp ⟨c, k, t⟩ i).importCount,
         (importStep imp ⟨c, k, t⟩ i).tasks ++ extra⟩ := by
      unfold importStep
      dsimp only
      rw [List.getElem?_append, if_pos hi]
      cases hti : t[i]? with
      | none => rfl
      | some ph =>
        cases ph with
        | notStarted =>
          cases hc : c with
          | none => simp [List.set_append_left i _ hi]
          | some v => simp [List.set_append_left i _ hi]
        | checked => simp [List.set_append_left i _ hi]
        | finished v => rfl
    rw [List.foldl_cons, List.foldl_cons, hstep]
    have hlen : (importStep imp ⟨c, k, t⟩ i).tasks.length = t.length :=
      importStep_tasks_length imp ⟨c, k, t⟩ i
    have hrest : ∀ j ∈ rest, j < (importStep imp ⟨c, k, t⟩ i).tasks.length := by
      intro j hj
      rw [hlen]
      exact hmem j (List.mem_cons_of_mem i hj)
    have := ih (importStep imp ⟨c, k, t⟩ i).cache
      (importStep imp ⟨c, k, t⟩ i).importCount
      (importStep imp ⟨c, k, t⟩ i).tasks extra hrest
    exact this

theorem seqSchedule_succ (n : Nat) : seqSchedule (n + 1) = seqSchedule n ++ [n, n] := by
  simp [seqSchedule, List.range_succ]

theorem seqSchedule_lt (n : Nat) : ∀ i ∈ seqSchedule n, i < n := by
  intro i hi
  simp only [seqSchedule, List.mem_flatMap, List.mem_range] at hi
  obtain ⟨a, ha, hia⟩ := hi
  simp only [List.mem_cons, List.not_mem_nil, or_false] at hia
  rcases hia with h | h <;> omega

/-- A warm-cache request: a fresh task stepping from `notStarted` against a
populated cache finishes immediately with the cached variable and performs
no import. -/
theorem importStep_fresh_hit (imp v : Variable) (k : Nat) (t : List TaskPhase) :
    importStep imp ⟨some v, k, t ++ [TaskPhase.notStarted]⟩ t.length =
      ⟨some v, k, t ++ [TaskPhase.finished v]⟩ := by
  unfold importStep
  dsimp only
  rw [List.getElem?_append_right (Nat.le_refl _)]
  simp only [Nat.sub_self, List.getElem?_cons_zero]
  rw [List.set_append_right _ _ (Nat.le_refl _)]
  simp

theorem importStep_finished_noop (imp v : Variable) (c : Option Variable)
    (k : Nat) (t : List TaskPhase) :
    importStep imp ⟨c, k, t ++ [TaskPhase.finished v]⟩ t.length =
      ⟨c, k, t ++ [TaskPhase.finished v]⟩ := by
  unfold importStep
  dsimp only
  rw [List.getElem?_append_right (Nat.le_refl _)]
  simp

theorem runSchedule_seq (imp : Variable) :
    ∀ n : Nat, 1 ≤ n →
      runSchedule imp n (seqSchedule n) =
        ⟨some imp, 1, List.replicate n (TaskPhase.finished imp)⟩ := by
  intro n
  induction n with
  | zero => intro h; exact absurd h (by omega)
  | succ m ih =>
    intro h
    by_cases hm : m = 0
    · subst hm; rfl
    · have hm1 : 1 ≤ m := Nat.one_le_iff_ne_zero.mpr hm
      have hIH := ih hm1
      unfold runSchedule at hIH ⊢
      rw [seqSchedule_succ, List.foldl_append,
        show List.replicate (m + 1) TaskPhase.notStarted
          = List.replicate m TaskPhase.notStarted ++ [TaskPhase.notStarted] from by
          rw [List.replicate_succ'],
        runSchedule_extend imp (seqSchedule m) none 0 _ _
          (fun i hi => by
            rw [List.length_replicate]
            exact seqSchedule_lt m i hi),
        hIH]
    -- two steps of the fresh task m against the warm cache
      have hfresh := importStep_fresh_hit imp imp 1
        (List.replicate m (TaskPhase.finished imp))
      rw [List.length_replicate] at hfresh
      have hnoop := importStep_finished_noop imp imp (some imp) 1
        (List.replicate m (TaskPhase.finished imp))
      rw [List.length_replicate] at hnoop
      rw [List.foldl_cons, hfresh, List.foldl_cons, hnoop, List.foldl_nil,
        ← List.replicate_succ']

/-- C3 (amended): N sequential (non-overlapping) requests for one source
key perform exactly one remote import, cache one materialization, and all
return that same variable; and any request issued once the cache entry is
populated returns the cached instance with zero additional remote imports.
(Concurrent first-time requests that interleave between the cache check and
the import may each perform an import — see the counterexample — which the
cache write tolerates, keeping a single entry for the key.) -/
theorem getImportedVariable_dedup (imp v : Variable) (n k : Nat)
    (t : List TaskPhase) (hn : 1 ≤ n) :
    runSchedule imp n (seqSchedule n) =
      ⟨some imp, 1, List.replicate n (TaskPhase.finished imp)⟩ ∧
    importStep imp ⟨some v, k, t ++ [TaskPhase.notStarted]⟩ t.length =
      ⟨some v, k, t ++ [TaskPhase.finished v]⟩ :=
  ⟨runSchedule_seq imp n hn, importStep_fresh_hit imp v k t⟩

theorem getImportedVariable_dedup_witness :
    runSchedule ⟨"1:2", "Primary", "VC1"⟩ 3 (seqSchedule 3) =
      ⟨some ⟨"1:2", "Primary", "VC1"⟩, 1,
        List.replicate 3 (TaskPhase.finished ⟨"1:2", "Primary", "VC1"⟩)⟩ ∧
    importStep ⟨"1:2", "Primary", "VC1"⟩
        ⟨some ⟨"9:9", "Other", "VC9"⟩, 1,
          [TaskPhase.finished ⟨"9:9", "Other", "VC9"⟩] ++ [TaskPhase.notStarted]⟩
        [TaskPhase.finished ⟨"9:9", "Other", "VC9"⟩].length =
      ⟨some ⟨"9:9", "Other", "VC9"⟩, 1,
        [TaskPhase.finished ⟨"9:9", "Other", "VC9"⟩] ++
          [TaskPhase.finished ⟨"9:9", "Other", "VC9"⟩]⟩ :=
  getImportedVariable_dedup ⟨"1:2", "Primary", "VC1"⟩ ⟨"9:9", "Other", "VC9"⟩
    3 1 [TaskPhase.finished ⟨"9:9", "Other", "VC9"⟩] (by decide)

/-- C3 counterexample: two concurrent tasks that both pass the cache check
before either performs the remote call (schedule 0,1,0,1) each perform a
remote call, so the run performs two imports for one key, not at most one. -/
theorem getImportedVariable_dedup_counterexample :
    (runSchedule ⟨"1:2", "Primary", "VC1"⟩ 2 [0, 1, 0, 1]).importCount = 2 ∧
    ¬ (runSchedule ⟨"1:2", "Primary", "VC1"⟩ 2 [0, 1, 0, 1]).importCount ≤ 1 := by
  decide

/-!
## Claim theorems: RebindingPipeline
-/

theorem map_id_of_forall {α : Type} (l : List α) (f : α → α)
    (h : ∀ a ∈ l, f a = a) : l.map f = l := by
  induction l with
  | nil => rfl
  | cons x xs ih =>
    rw [List.map_cons, h x (by simp), ih (fun a ha => h a (by simp [ha]))]

/-- C4: on a node whose bound solid paints all resolve to variables of the
target collection, paint rebinding leaves every paint entry unchanged, and
a second run of the step is byte-for-byte the identity as well. -/
theorem processPaints_migrated_noop (resolveVar : String → Option Variable)
    (importVar : LibraryVariable → Option Variable)
    (setBound : Paint → Variable → Paint)
    (webVariablesMap : List (String × LibraryVariable))
    (c : String) (paints : List Paint)
    (hres : ∀ vid col, Paint.solid (some vid) col ∈ paints →
      ∃ v, resolveVar vid = some v ∧ v.variableCollectionId = c) :
    processPaints resolveVar importVar setBound webVariablesMap (some c) paints
      = paints ∧
    processPaints resolveVar importVar setBound webVariablesMap (some c)
      (processPaints resolveVar importVar setBound webVariablesMap (some c) paints)
      = processPaints resolveVar importVar setBound webVariablesMap (some c) paints := by
  have helem : ∀ p ∈ paints,
      processPaint resolveVar importVar setBound webVariablesMap (some c) p = p := by
    intro p hp
    cases p with
    | other r => rfl
    | solid b col =>
      cases b with
      | none => rfl
      | some vid =>
        obtain ⟨v, hv, hvc⟩ := hres vid col hp
        simp only [processPaint, hv]
        simp [isFromWebCollection, hvc]
  have hmap := map_id_of_forall paints
    (processPaint resolveVar importVar setBound webVariablesMap (some c)) helem
  have hone : processPaints resolveVar importVar setBound webVariablesMap (some c) paints
      = paints := by
    unfold processPaints
    rw [hmap, if_pos rfl]
  exact ⟨hone, by rw [hone, hone]⟩

/-- Oracle used by witnesses: `getVariableByIdAsync` resolving the bound
variable id `v1` to a variable of the collection `VCweb`. -/
def resolveVarW : String → Option Variable :=
  fun i => if i = "v1" then some ⟨"v1", "Color", "VCweb"⟩ else none

/-- Oracle used by witnesses: imports materialize into collection `VCweb`. -/
def importVarW : LibraryVariable → Option Variable :=
  fun lv => some ⟨"i-" ++ lv.key, lv.name, "VCweb"⟩

/-- Oracle used by witnesses: `setBoundVariableForPaint` as a pure paint
transform rebinding the color channel. -/
def setBoundW : Paint → Variable → Paint :=
  fun p v =>
    match p with
    | Paint.solid _ col => Paint.solid (some v.id) col
    | Paint.other r => Paint.other r

/-- Catalog used by witnesses: one descriptor named `Color`. -/
def webMapW : List (String × LibraryVariable) := [("Color", ⟨"k1", "Color"⟩)]

theorem processPaints_migrated_noop_witness :
    processPaints resolveVarW importVarW setBoundW webMapW (some "VCweb")
        [Paint.solid (some "v1") "red", Paint.other "gradient"]
      = [Paint.solid (some "v1") "red", Paint.other "gradient"] ∧
    processPaints resolveVarW importVarW setBoundW webMapW (some "VCweb")
        (processPaints resolveVarW importVarW setBoundW webMapW (some "VCweb")
          [Paint.solid (some "v1") "red", Paint.other "gradient"])
      = processPaints resolveVarW importVarW setBoundW webMapW (some "VCweb")
          [Paint.solid (some "v1") "red", Paint.other "gradient"] :=
  processPaints_migrated_noop resolveVarW importVarW setBoundW webMapW "VCweb"
    [Paint.solid (some "v1") "red", Paint.other "gradient"]
    (by
      intro vid col h
      simp only [List.mem_cons, List.not_mem_nil, or_false] at h
      rcases h with h | h
      · obtain ⟨hvid, hcol⟩ := Paint.solid.inj h
        obtain rfl : vid = "v1" := Option.some.inj hvid
        exact ⟨⟨"v1", "Color", "VCweb"⟩, rfl, rfl⟩
      · exact absurd h (by simp))

/-- C6: a node nested inside a reusable-instance ancestor gets its fills
and strokes rebound by `processPaints`, while its explicit
collection-to-mode mapping is left completely untouched — the
mode-reassignment sub-step is not run for it. -/
theorem processSingleNode_nested_in_instance
    (resolveVar : String → Option Variable)
    (importVar : LibraryVariable → Option Variable)
    (setBound : Paint → Variable → Paint)
    (resolveCollection : String → Option VariableCollection)
    (webVariablesMap : List (String × LibraryVariable))
    (webCollection : Option VariableCollection)
    (ancestorTypes : List String) (node : SceneNodeProps)
    (h : isNestedInInstance ancestorTypes = true) :
    (processSingleNode resolveVar importVar setBound resolveCollection
        webVariablesMap webCollection ancestorTypes node).explicitVariableModes
      = node.explicitVariableModes ∧
    (processSingleNode resolveVar importVar setBound resolveCollection
        webVariablesMap webCollection ancestorTypes node).fills
      = node.fills.map (processPaints resolveVar importVar setBound webVariablesMap
          (Option.map VariableCollection.id webCollection)) ∧
    (processSingleNode resolveVar importVar setBound resolveCollection
        webVariablesMap webCollection ancestorTypes node).strokes
      = node.strokes.map (processPaints resolveVar importVar setBound webVariablesMap
          (Option.map VariableCollection.id webCollection)) := by
  unfold processSingleNode
  rw [if_pos h]
  exact ⟨rfl, rfl, rfl⟩

theorem processSingleNode_nested_in_instance_witness :
    (processSingleNode resolveVarW importVarW setBoundW (fun k => some ⟨k⟩)
        webMapW (some ⟨"VCtarget"⟩) ["FRAME", "INSTANCE"]
        ⟨some [Paint.solid (some "v1") "red"], some [Paint.other "grad"],
          some [("c1", "m1")]⟩).explicitVariableModes
      = some [("c1", "m1")] ∧
    (processSingleNode resolveVarW importVarW setBoundW (fun k => some ⟨k⟩)
        webMapW (some ⟨"VCtarget"⟩) ["FRAME", "INSTANCE"]
        ⟨some [Paint.solid (some "v1") "red"], some [Paint.other "grad"],
          some [("c1", "m1")]⟩).fills
      = (some [Paint.solid (some "v1") "red"]).map
          (processPaints resolveVarW importVarW setBoundW webMapW
            (Option.map VariableCollection.id (some ⟨"VCtarget"⟩))) ∧
    (processSingleNode resolveVarW importVarW setBoundW (fun k => some ⟨k⟩)
        webMapW (some ⟨"VCtarget"⟩) ["FRAME", "INSTANCE"]
        ⟨some [Paint.solid (some "v1") "red"], some [Paint.other "grad"],
          some [("c1", "m1")]⟩).strokes
      = (some [Paint.other "grad"]).map
          (processPaints resolveVarW importVarW setBoundW webMapW
            (Option.map VariableCollection.id (some ⟨"VCtarget"⟩))) :=
  processSingleNode_nested_in_instance resolveVarW importVarW setBoundW
    (fun k => some ⟨k⟩) webMapW (some ⟨"VCtarget"⟩) ["FRAME", "INSTANCE"]
    ⟨some [Paint.solid (some "v1") "red"], some [Paint.other "grad"],
      some [("c1", "m1")]⟩ (by decide)

theorem clear_fold_nil (cs : List (Option VariableCollection)) :
    ∀ m : List (String × String),
      (∀ kv ∈ m, ∃ c, some c ∈ cs ∧ c.id = kv.1) →
      cs.foldl
        (fun acc oc =>
          match oc with
          | none => acc
          | some coll => clearExplicitMode acc coll.id) m = [] := by
  induction cs with
  | nil =>
    intro m hm
    cases m with
    | nil => rfl
    | cons kv rest =>
      obtain ⟨c, hc, _⟩ := hm kv (by simp)
      exact absurd hc (by simp)
  | cons oc rest ih =>
    intro m hm
    rw [List.foldl_cons]
    apply ih
    intro kv hkv
    cases oc with
    | none =>
      obtain ⟨c, hc, hid⟩ := hm kv hkv
      rcases List.mem_cons.mp hc with hh | hh
      · exact absurd hh (by simp)
      · exact ⟨c, hh, hid⟩
    | some coll =>
      have hmem : kv ∈ m ∧ kv.1 ≠ coll.id := by
        have hf := List.mem_filter.mp hkv
        refine ⟨hf.1, ?_⟩
        have := hf.2
        simpa using this
      obtain ⟨c, hc, hid⟩ := hm kv hmem.1
      rcases List.mem_cons.mp hc with hh | hh
      · exfalso
        apply hmem.2
        have hcc : c = coll := Option.some.inj hh
        rw [← hid, hcc]
      · exact ⟨c, hh, hid⟩

theorem setExplicitMode_fold_last (wid : String) (vs : List String) :
    ∀ x : String,
      vs.foldl (fun m v => setExplicitMode m wid v) [(wid, x)]
        = [(wid, vs.getLastD x)] := by
  induction vs with
  | nil => intro x; rfl
  | cons v rest ih =>
    intro x
    rw [List.foldl_cons]
    have hset : setExplicitMode [(wid, x)] wid v = [(wid, v)] := by
      unfold setExplicitMode
      simp
    rw [hset, ih v, List.getLastD_cons]

/-- C7 (amended): on a non-instance-nested ModeHost node with a non-empty
explicit mapping, when every referenced collection resolves to itself and a
target collection is available, the step clears the explicit mode of every
original collection and then sets every original mode value on the target
collection in order; a collection holds a single explicit mode, so the node
ends up with exactly one entry — the target collection mapped to the *last*
mode value of the original mapping (so a single-entry mapping, or one whose
entries share a mode id, is relocated with its mode id preserved, while
earlier modes of a multi-entry mapping are overwritten). -/
theorem reassignVariableModes_relocates_to_target
    (resolveCollection : String → Option VariableCollection)
    (modes : List (String × String)) (w : VariableCollection)
    (hne : modes ≠ [])
    (hres : ∀ kv ∈ modes, ∃ c, resolveCollection kv.1 = some c ∧ c.id = kv.1) :
    reassignVariableModes resolveCollection (some modes) (some w)
      = some [(w.id, (modes.map Prod.snd).getLastD "")] := by
  unfold reassignVariableModes
  dsimp only
  rw [if_neg hne]
  have hclear : (modes.map (fun kv => resolveCollection kv.1)).foldl
      (fun acc oc =>
        match oc with
        | none => acc
        | some coll => clearExplicitMode acc coll.id) modes = [] := by
    apply clear_fold_nil
    intro kv hkv
    obtain ⟨c, hc, hid⟩ := hres kv hkv
    exact ⟨c, List.mem_map.mpr ⟨kv, hkv, hc⟩, hid⟩
  rw [hclear]
  cases modes with
  | nil => exact absurd rfl hne
  | cons kv rest =>
    rw [List.foldl_cons]
    have hfirst : setExplicitMode [] w.id kv.2 = [(w.id, kv.2)] := by
      unfold setExplicitMode
      simp
    rw [hfirst, ← List.foldl_map Prod.snd (fun m v => setExplicitMode m w.id v) rest,
      setExplicitMode_fold_last, List.map_cons, List.getLastD_cons]

/-- Host oracle for witnesses: every collection id resolves to the
collection with that id. -/
def resolveCollectionTotal : String → Option VariableCollection :=
  fun k => some ⟨k⟩

theorem reassignVariableModes_relocates_to_target_witness :
    reassignVariableModes resolveCollectionTotal
        (some [("c1", "m1"), ("c2", "m2")]) (some ⟨"w"⟩)
      = some [("w", "m2")] :=
  (reassignVariableModes_relocates_to_target resolveCollectionTotal
      [("c1", "m1"), ("c2", "m2")] ⟨"w"⟩ (by decide)
      (fun kv _ => ⟨⟨kv.1⟩, rfl, rfl⟩)).trans (by rfl)

/-- C7 counterexample: a mapping with two entries `c1 ↦ m1, c2 ↦ m2` (all
collections resolving, target `w` available) ends as `w ↦ m2` only — the
previously-set override `m1` does not end up on the target collection, so
not every explicit mode override is preserved. -/
theorem reassignVariableModes_counterexample :
    ("c1", "m1") ∈ [("c1", "m1"), ("c2", "m2")] ∧
    (reassignVariableModes resolveCollectionTotal
        (some [("c1", "m1"), ("c2", "m2")]) (some ⟨"w"⟩)).getD []
      = [("w", "m2")] ∧
    ¬ ("w", "m1") ∈ (reassignVariableModes resolveCollectionTotal
        (some [("c1", "m1"), ("c2", "m2")]) (some ⟨"w"⟩)).getD [] := by
  decide

/-- C10: when no target collection was resolved (`webCollection` is null,
so `webCollectionId` is null), the already-in-target-collection skip can
never be taken — `isFromWebCollection` is false against a null id — and a
solid paint whose bound variable resolves and whose name matches the
catalog is rebound to the freshly imported variable, with no condition on
the own collection of the resolved variable (in particular even when it
already equals the catalog collection). -/
theorem processPaints_null_target_rebinds
    (resolveVar : String → Option Variable)
    (importVar : LibraryVariable → Option Variable)
    (setBound : Paint → Variable → Paint)
    (webVariablesMap : List (String × LibraryVariable))
    (vid col : String) (v : Variable) (lv : LibraryVariable) (imp : Variable)
    (h1 : resolveVar vid = some v)
    (h2 : mapGet webVariablesMap v.name = some lv)
    (h3 : importVar lv = some imp) :
    isFromWebCollection v none = false ∧
    processPaint resolveVar importVar setBound webVariablesMap none
        (Paint.solid (some vid) col)
      = setBound (Paint.solid (some vid) col) imp ∧
    processPaints resolveVar importVar setBound webVariablesMap none
        [Paint.solid (some vid) col]
      = [setBound (Paint.solid (some vid) col) imp] := by
  have hf : isFromWebCollection v none = false := by
    simp [isFromWebCollection]
  have hp : processPaint resolveVar importVar setBound webVariablesMap none
      (Paint.solid (some vid) col) = setBound (Paint.solid (some vid) col) imp := by
    simp only [processPaint, h1, h2, h3]
    simp
  refine ⟨hf, hp, ?_⟩
  unfold processPaints
  dsimp only
  rw [List.map_cons, List.map_nil, hp]
  split_ifs with he
  · exact he.symm
  · rfl

theorem processPaints_null_target_rebinds_witness :
    isFromWebCollection ⟨"v1", "Color", "VCweb"⟩ none = false ∧
    processPaint resolveVarW importVarW setBoundW webMapW none
        (Paint.solid (some "v1") "red")
      = setBoundW (Paint.solid (some "v1") "red") ⟨"i-k1", "Color", "VCweb"⟩ ∧
    processPaints resolveVarW importVarW setBoundW webMapW none
        [Paint.solid (some "v1") "red"]
      = [setBoundW (Paint.solid (some "v1") "red") ⟨"i-k1", "Color", "VCweb"⟩] :=
  processPaints_null_target_rebinds resolveVarW importVarW setBoundW webMapW
    "v1" "red" ⟨"v1", "Color", "VCweb"⟩ ⟨"k1", "Color"⟩ ⟨"i-k1", "Color", "VCweb"⟩
    (by decide) (by decide) (by decide)
